import Mathlib

/-!
Formalization of the core of the gomegalint linter: the assertion
matcher (`getAssertion`), the style classifier (`getStyle`), the
fix-token renderer (`renderInStyle`), the nilness rule engine
(`checkNilnessAssertions`) and the style rule engine (`checkStyle`),
shallowly embedded from the Go source. Go panics (`panic`, index out of
range, nil dereference) are modelled as `Except.error`; the
host-supplied type-capability query `isErrorExpr` is a parameter
`isError : Expr → Bool`; `go/ast` expressions are modelled by the
inductive `Expr` below, with source position ranges (`Pos()`/`End()`)
carried as `Span`s.
-/

namespace Gomegalint

/-- Source position range of a syntax node (Go `Pos()` and `End()`). -/
structure Span where
  pos : Nat
  stop : Nat
deriving DecidableEq, Repr

/-- Go `ast.Ident`: a plain identifier with its position range. -/
structure Ident where
  span : Span
  name : String
deriving DecidableEq, Repr

/-- Go `ast.Expr` restricted to the node shapes the checker inspects:
identifiers, call expressions (`Fun`, `Args`), selector expressions
(`X`, `Sel`), and an opaque constructor for every other expression
kind (on which every type assertion of the Go code fails). -/
inductive Expr where
  | identE (i : Ident)
  | call (span : Span) (fn : Expr) (args : List Expr)
  | selector (span : Span) (x : Expr) (sel : Ident)
  | other (span : Span)

/-- Position range of an expression. -/
def Expr.span : Expr → Span
  | Expr.identE i => i.span
  | Expr.call s _ _ => s
  | Expr.selector s _ _ => s
  | Expr.other s => s

/-- Whether the expression is a `*ast.CallExpr` (the Go type assertion
`_, isCall := e.(*ast.CallExpr)`). -/
def Expr.isCall : Expr → Bool
  | Expr.call _ _ _ => true
  | _ => false

/-- Go `const Omega = "Ω"`. -/
def Omega : String := "Ω"

/-- Go `const Expect = "Expect"`. -/
def Expect : String := "Expect"

/-- Go `const Should = "Should"`. -/
def Should : String := "Should"

/-- Go `const ShouldNot = "ShouldNot"`. -/
def ShouldNot : String := "ShouldNot"

/-- Go `const To = "To"`. -/
def To : String := "To"

/-- Go `const ToNot = "ToNot"`. -/
def ToNot : String := "ToNot"

/-- Go `const NotTo = "NotTo"`. -/
def NotTo : String := "NotTo"

/-- Go `type Style int`; the named constants are the only values the
program ever constructs, but any `Int` inhabits the type, exactly as
any `int` inhabits the Go type. -/
abbrev Style := Int

/-- Go `ShouldStyle Style = iota` (value 0). -/
def ShouldStyle : Style := 0

/-- Go `ExpectStyle` (value 1). -/
def ExpectStyle : Style := 1

/-- Go `type KnownMatcher string`. -/
abbrev KnownMatcher := String

/-- Go `UnknownMatcher KnownMatcher = ""`. -/
def UnknownMatcher : KnownMatcher := ""

/-- Go `IsNil KnownMatcher = "BeNil"`. -/
def IsNil : KnownMatcher := "BeNil"

/-- Go `HaveOccurred KnownMatcher = "HaveOccurred"`. -/
def HaveOccurred : KnownMatcher := "HaveOccurred"

/-- Go `Succeed KnownMatcher = "Succeed"`. -/
def Succeed : KnownMatcher := "Succeed"

/-- Go `func matchesNil(m KnownMatcher) bool { return m != HaveOccurred }`. -/
def matchesNil (m : KnownMatcher) : Bool := m != HaveOccurred

/-- The `switch shouldGetter.Sel.Name` of `getAssertion`: `Should`/`To`
give `negated = false`, `ShouldNot`/`ToNot`/`NotTo` give
`negated = true`, any other name falls to the `default: return nil`
branch (here `none`). -/
def comparatorNegation (s : String) : Option Bool :=
  if s = Should ∨ s = To then some false
  else if s = ShouldNot ∨ s = ToNot ∨ s = NotTo then some true
  else none

/-- Go `type assertion struct`, describing a recognized
`Ω(X).Should(Y)`-like call: the whole call's span, the `Ω` part, the
`X` part, the `Should` part, the `Y` part, and whether the comparator
denotes negation. -/
structure Assertion where
  span : Span
  Omega : Ident
  Subject : Expr
  Should : Ident
  Matcher : Expr
  Negated : Bool

/-- Go `func getAssertion(n ast.Node) *assertion`. The translation is
line-faithful, including two quirks of the source: after extracting the
inner wrapper call `omegaCall`, the arity guard re-tests
`len(call.Args) != 1` on the OUTER call instead of testing
`omegaCall.Args`; and the final construction reads
`omegaCall.Args[0]`, which panics (modelled as `Except.error`) when
the inner call has no arguments. -/
def getAssertion (n : Expr) : Except String (Option Assertion) :=
  match n with
  | Expr.call sp fn args =>
    if args.length ≠ 1 then Except.ok none else
    match fn with
    | Expr.selector _ x sel =>
      match x with
      | Expr.call _ omegaFn omegaArgs =>
        if args.length ≠ 1 then Except.ok none else
        match omegaFn with
        | Expr.identE omega =>
          if omega.name = Omega ∨ omega.name = Expect then
            match comparatorNegation sel.name with
            | some negated =>
              match omegaArgs, args with
              | subject :: _, matcher :: _ =>
                Except.ok (some ⟨sp, omega, subject, sel, matcher, negated⟩)
              | [], _ => Except.error "index out of range"
              | _, [] => Except.error "index out of range"
            | none => Except.ok none
          else Except.ok none
        | _ => Except.ok none
      | _ => Except.ok none
    | _ => Except.ok none
  | _ => Except.ok none

/-- Go `func getStyle(s string) Style`; the `default: panic("foo")`
branch is `Except.error "foo"`. -/
def getStyle (s : String) : Except String Style :=
  if s = Omega ∨ s = Should ∨ s = ShouldNot then Except.ok ShouldStyle
  else if s = Expect ∨ s = To ∨ s = ToNot ∨ s = NotTo then Except.ok ExpectStyle
  else Except.error "foo"

/-- Go `func renderInStyle(style Style, negated bool) string`; the
`default: panic("bar")` branch is `Except.error "bar"`. -/
def renderInStyle (style : Style) (negated : Bool) : Except String String :=
  if style = ShouldStyle then Except.ok (if negated then ShouldNot else Should)
  else if style = ExpectStyle then Except.ok (if negated then NotTo else To)
  else Except.error "bar"

/-- Go `func getKnownMatcher(ass assertion) (*ast.Ident, KnownMatcher)`. -/
def getKnownMatcher (ass : Assertion) : Option Ident × KnownMatcher :=
  match ass.Matcher with
  | Expr.call _ fn args =>
    if args.length ≠ 0 then (none, UnknownMatcher) else
    match fn with
    | Expr.identE matcherIdent =>
      if matcherIdent.name = IsNil ∨ matcherIdent.name = HaveOccurred ∨
          matcherIdent.name = Succeed then
        (some matcherIdent, matcherIdent.name)
      else (none, UnknownMatcher)
    | _ => (none, UnknownMatcher)
  | _ => (none, UnknownMatcher)

/-- Go `analysis.TextEdit`: a position range plus replacement text. -/
structure TextEdit where
  pos : Nat
  stop : Nat
  newText : String
deriving DecidableEq, Repr

/-- Go `analysis.SuggestedFix`: a message plus an ordered edit list. -/
structure SuggestedFix where
  message : String
  textEdits : List TextEdit
deriving DecidableEq, Repr

/-- Go `analysis.Diagnostic`: position range, message, fixes. -/
structure Diagnostic where
  pos : Nat
  stop : Nat
  message : String
  suggestedFixes : List SuggestedFix
deriving DecidableEq, Repr

/-- Go `func checkNilnessAssertions(ass assertion, pass *analysis.Pass)
(emittedShouldFix bool)`. The reported diagnostics are returned instead
of being sent to `pass.Report`; `isError` stands for
`isErrorExpr(·, pass.TypesInfo)`. A nil `matcherIdent` reaching
`matcherIdent.Pos()` would be a Go nil-pointer panic, modelled as
`Except.error` (unreachable, as proved below). -/
def checkNilnessAssertions (isError : Expr → Bool) (ass : Assertion) :
    Except String (List Diagnostic × Bool) :=
  match getKnownMatcher ass with
  | (matcherIdentOpt, matcher) =>
    if matcher = UnknownMatcher then Except.ok ([], false) else
    match matcherIdentOpt with
    | none => Except.error "nil pointer dereference"
    | some matcherIdent =>
      let expectedMatcher : KnownMatcher :=
        if isError ass.Subject then
          if ass.Subject.isCall then Succeed else HaveOccurred
        else IsNil
      if matcher = expectedMatcher then Except.ok ([], false) else
      let firstEdit : TextEdit :=
        ⟨matcherIdent.span.pos, matcherIdent.span.stop, expectedMatcher⟩
      let needsInverting : Bool := matchesNil matcher != matchesNil expectedMatcher
      let fixTail : Except String (String × List TextEdit) :=
        if needsInverting then
          match getStyle ass.Omega.name with
          | Except.error e => Except.error e
          | Except.ok st =>
            match renderInStyle st (ass.Negated != needsInverting) with
            | Except.error e => Except.error e
            | Except.ok tok =>
              Except.ok ("change matcher to " ++ expectedMatcher ++
                  " and invert the assertion",
                [firstEdit, ⟨ass.Should.span.pos, ass.Should.span.stop, tok⟩])
        else Except.ok ("change matcher to " ++ expectedMatcher, [firstEdit])
      match fixTail with
      | Except.error e => Except.error e
      | Except.ok (fixMessage, edits) =>
        Except.ok
          ([⟨ass.span.pos, ass.span.stop,
            "unidiomatic matcher: consider using " ++ expectedMatcher ++
              " instead of " ++ matcher ++ " in this assertion",
            [⟨fixMessage, edits⟩]⟩],
          needsInverting)

/-- Go `func checkStyle(ass assertion, pass *analysis.Pass, emitFixes
bool)`. The reported diagnostics are returned instead of being sent to
`pass.Report`; a `getStyle` panic propagates as `Except.error`, the
left operand of `==` being evaluated first as in Go. -/
def checkStyle (ass : Assertion) (emitFixes : Bool) :
    Except String (List Diagnostic) :=
  match getStyle ass.Omega.name, getStyle ass.Should.name with
  | Except.error e, _ => Except.error e
  | Except.ok _, Except.error e => Except.error e
  | Except.ok so, Except.ok ss =>
    if so = ss then Except.ok [] else
    let message :=
      "inconsistent assertion style (" ++ ass.Omega.name ++ " + " ++
        ass.Should.name ++ ")"
    if emitFixes then
      match renderInStyle so ass.Negated with
      | Except.error e => Except.error e
      | Except.ok fixedShould =>
        Except.ok [⟨ass.span.pos, ass.span.stop, message,
          [⟨"change " ++ ass.Should.name ++ " to " ++ fixedShould,
            [⟨ass.Should.span.pos, ass.Should.span.stop, fixedShould⟩]⟩]⟩]
    else
      Except.ok [⟨ass.span.pos, ass.span.stop, message, []⟩]

/-- The body of the `ast.Inspect` closure in `run`: consult the
assertion matcher; on no match do nothing; on a match run the nilness
rule engine first, then the style rule engine with
`emitFixes = !emittedShouldFix`, collecting diagnostics in report
order. -/
def checkNode (isError : Expr → Bool) (n : Expr) :
    Except String (List Diagnostic) :=
  match getAssertion n with
  | Except.error e => Except.error e
  | Except.ok none => Except.ok []
  | Except.ok (some ass) =>
    match checkNilnessAssertions isError ass with
    | Except.error e => Except.error e
    | Except.ok (ds, emittedShouldFix) =>
      match checkStyle ass (!emittedShouldFix) with
      | Except.error e => Except.error e
      | Except.ok ds2 => Except.ok (ds ++ ds2)

/-! Helper lemmas about the classifiers. -/

theorem getStyle_Omega : getStyle Omega = Except.ok ShouldStyle := rfl

theorem getStyle_Expect : getStyle Expect = Except.ok ExpectStyle := rfl

theorem comparatorNegation_cases {s : String} {b : Bool}
    (h : comparatorNegation s = some b) :
    (s = Should ∨ s = To) ∧ b = false ∨
    (s = ShouldNot ∨ s = ToNot ∨ s = NotTo) ∧ b = true := by
  unfold comparatorNegation at h
  split at h
  · exact Or.inl ⟨by assumption, by injection h with h1; exact h1.symm⟩
  · split at h
    · exact Or.inr ⟨by assumption, by injection h with h1; exact h1.symm⟩
    · cases h

/-- Every name the matcher accepts as a wrapper or comparator
classifies without reaching the `panic("foo")` branch, and the
resulting style is one of the two named constants. -/
theorem getStyle_ok_of_known {s : String}
    (h : s = Omega ∨ s = Expect ∨ s = Should ∨ s = To ∨ s = ShouldNot ∨
      s = ToNot ∨ s = NotTo) :
    ∃ st, getStyle s = Except.ok st ∧ (st = ShouldStyle ∨ st = ExpectStyle) := by
  rcases h with rfl | rfl | rfl | rfl | rfl | rfl | rfl
  · exact ⟨ShouldStyle, rfl, Or.inl rfl⟩
  · exact ⟨ExpectStyle, rfl, Or.inr rfl⟩
  · exact ⟨ShouldStyle, rfl, Or.inl rfl⟩
  · exact ⟨ExpectStyle, rfl, Or.inr rfl⟩
  · exact ⟨ShouldStyle, rfl, Or.inl rfl⟩
  · exact ⟨ExpectStyle, rfl, Or.inr rfl⟩
  · exact ⟨ExpectStyle, rfl, Or.inr rfl⟩

/-- The renderer succeeds on both named styles, and the produced token
round-trips: it classifies back to the same style and its negation flag
is recovered by the comparator switch of the matcher. -/
theorem renderInStyle_spec {st : Style} (h : st = ShouldStyle ∨ st = ExpectStyle)
    (negated : Bool) :
    ∃ tok, renderInStyle st negated = Except.ok tok ∧
      getStyle tok = Except.ok st ∧ comparatorNegation tok = some negated := by
  rcases h with rfl | rfl <;> cases negated
  · exact ⟨Should, rfl, rfl, rfl⟩
  · exact ⟨ShouldNot, rfl, rfl, rfl⟩
  · exact ⟨To, rfl, rfl, rfl⟩
  · exact ⟨NotTo, rfl, rfl, rfl⟩

/-- Any recognized assertion carries a wrapper name from the two-name
set and a comparator name accepted by the negation switch, with
`Negated` the value that switch computed. -/
theorem getAssertion_names {n : Expr} {ass : Assertion}
    (h : getAssertion n = Except.ok (some ass)) :
    (ass.Omega.name = Omega ∨ ass.Omega.name = Expect) ∧
    comparatorNegation ass.Should.name = some ass.Negated := by
  rcases n with i | ⟨sp, fn, args⟩ | ⟨sp, x, sel⟩ | sp
  · simp [getAssertion] at h
  · rcases fn with i2 | ⟨sp2, fn2, args2⟩ | ⟨sp2, x2, sel2⟩ | sp2
    · simp [getAssertion] at h
    · simp [getAssertion] at h
    · rcases x2 with i3 | ⟨sp3, omegaFn, omegaArgs⟩ | ⟨sp3, x3, sel3⟩ | sp3
      · simp [getAssertion] at h
      · rcases omegaFn with omega | ⟨sp4, fn4, args4⟩ | ⟨sp4, x4, sel4⟩ | sp4
        · simp only [getAssertion] at h
          split at h
          · simp at h
          · split at h
            · rename_i hname
              split at h
              · rename_i negated hneg
                split at h
                · simp only [Except.ok.injEq, Option.some.injEq] at h
                  subst h
                  exact ⟨hname, hneg⟩
                · simp at h
                · simp at h
              · simp at h
            · simp at h
        · simp [getAssertion] at h
        · simp [getAssertion] at h
        · simp [getAssertion] at h
      · simp [getAssertion] at h
      · simp [getAssertion] at h
    · simp [getAssertion] at h
  · simp [getAssertion] at h
  · simp [getAssertion] at h

/-- The classifier only ever returns the two named style constants. -/
theorem getStyle_mem {s : String} {st : Style} (h : getStyle s = Except.ok st) :
    st = ShouldStyle ∨ st = ExpectStyle := by
  unfold getStyle at h
  split at h
  · exact Or.inl (by injection h with h1; exact h1.symm)
  · split at h
    · exact Or.inr (by injection h with h1; exact h1.symm)
    · cases h

/-- The three known matcher names are distinct from the empty string
that encodes `UnknownMatcher`. -/
theorem known_ne_unknown {m : KnownMatcher}
    (h : m = IsNil ∨ m = HaveOccurred ∨ m = Succeed) : m ≠ UnknownMatcher := by
  rcases h with rfl | rfl | rfl <;> decide

/-- Case analysis of the matcher classifier: either the matcher
expression is a zero-argument call on a plain identifier bearing one
of the three known names, and classification returns that identifier
together with its name, or classification returns
`(none, UnknownMatcher)`. -/
theorem getKnownMatcher_cases (ass : Assertion) :
    (∃ sp i, ass.Matcher = Expr.call sp (Expr.identE i) [] ∧
      (i.name = IsNil ∨ i.name = HaveOccurred ∨ i.name = Succeed) ∧
      getKnownMatcher ass = (some i, i.name)) ∨
    getKnownMatcher ass = (none, UnknownMatcher) := by
  rcases hM : ass.Matcher with i | ⟨sp, fn, args⟩ | ⟨sp, x, sel⟩ | sp
  · right; simp [getKnownMatcher, hM]
  · rcases fn with i2 | ⟨sp2, a2, b2⟩ | ⟨sp2, a2, b2⟩ | sp2
    · rcases args with _ | ⟨a0, arest⟩
      · by_cases hname : i2.name = IsNil ∨ i2.name = HaveOccurred ∨ i2.name = Succeed
        · left
          refine ⟨sp, i2, rfl, hname, ?_⟩
          simp only [getKnownMatcher, hM]
          simp [hname]
        · right
          simp only [getKnownMatcher, hM]
          simp [hname]
      · right; simp [getKnownMatcher, hM]
    · right; simp [getKnownMatcher, hM]
    · right; simp [getKnownMatcher, hM]
    · right; simp [getKnownMatcher, hM]
  · right; simp [getKnownMatcher, hM]
  · right; simp [getKnownMatcher, hM]

/-- When the matcher classifies to `UnknownMatcher`, the nilness engine
reports nothing, produces no edits, and hands `false` back. -/
theorem checkNilness_unknown (isError : Expr → Bool) {ass : Assertion}
    (h : (getKnownMatcher ass).2 = UnknownMatcher) :
    checkNilnessAssertions isError ass = Except.ok ([], false) := by
  unfold checkNilnessAssertions
  rw [show getKnownMatcher ass = ((getKnownMatcher ass).1, (getKnownMatcher ass).2)
    from rfl, h]
  simp [UnknownMatcher]

/-- Full characterization of the nilness engine on a classified
matcher: either the actual matcher already is the expected one and
nothing is reported; or it differs with equal nil-polarity and exactly
one diagnostic with a single-edit fix (replace the matcher identifier)
is reported with `false` handed back; or it differs with opposite
nil-polarity and the fix carries a second edit rewriting the
comparator token to the wrapper-style token with flipped negation, the
fix message is marked as inverting, and `true` is handed back. -/
theorem checkNilness_known_spec (isError : Expr → Bool) {ass : Assertion} {i : Ident}
    {expected : KnownMatcher} {st : Style}
    (hkm : getKnownMatcher ass = (some i, i.name))
    (hknown : i.name = IsNil ∨ i.name = HaveOccurred ∨ i.name = Succeed)
    (hexp : expected = if isError ass.Subject then
        (if ass.Subject.isCall then Succeed else HaveOccurred) else IsNil)
    (hst : getStyle ass.Omega.name = Except.ok st) :
    (i.name = expected ∧ checkNilnessAssertions isError ass = Except.ok ([], false)) ∨
    (i.name ≠ expected ∧ matchesNil i.name = matchesNil expected ∧
      checkNilnessAssertions isError ass = Except.ok
        ([⟨ass.span.pos, ass.span.stop,
          "unidiomatic matcher: consider using " ++ expected ++ " instead of " ++
            i.name ++ " in this assertion",
          [⟨"change matcher to " ++ expected,
            [⟨i.span.pos, i.span.stop, expected⟩]⟩]⟩], false)) ∨
    (i.name ≠ expected ∧ matchesNil i.name ≠ matchesNil expected ∧
      ∃ tok, renderInStyle st (!ass.Negated) = Except.ok tok ∧
        getStyle tok = Except.ok st ∧ comparatorNegation tok = some (!ass.Negated) ∧
        checkNilnessAssertions isError ass = Except.ok
          ([⟨ass.span.pos, ass.span.stop,
            "unidiomatic matcher: consider using " ++ expected ++ " instead of " ++
              i.name ++ " in this assertion",
            [⟨"change matcher to " ++ expected ++ " and invert the assertion",
              [⟨i.span.pos, i.span.stop, expected⟩,
                ⟨ass.Should.span.pos, ass.Should.span.stop, tok⟩]⟩]⟩], true)) := by
  have hne : i.name ≠ UnknownMatcher := known_ne_unknown hknown
  have hsty : st = ShouldStyle ∨ st = ExpectStyle := getStyle_mem hst
  by_cases hEq : i.name = expected
  · left
    refine ⟨hEq, ?_⟩
    unfold checkNilnessAssertions
    rw [hkm]
    simp only [if_neg hne, ← hexp, if_pos hEq]
  · by_cases hPol : matchesNil i.name = matchesNil expected
    · right; left
      refine ⟨hEq, hPol, ?_⟩
      have hb : (matchesNil i.name != matchesNil expected) = false := by
        simp [hPol]
      unfold checkNilnessAssertions
      rw [hkm]
      simp only [if_neg hne, ← hexp, if_neg hEq, hb]
      simp
    · right; right
      have hb : (matchesNil i.name != matchesNil expected) = true := by
        simp [bne_iff_ne]
        exact hPol
      obtain ⟨tok, htok, hback, hnegtok⟩ := renderInStyle_spec hsty (!ass.Negated)
      refine ⟨hEq, hPol, tok, htok, hback, hnegtok, ?_⟩
      have hflip : (ass.Negated != true) = !ass.Negated := by
        cases ass.Negated <;> rfl
      unfold checkNilnessAssertions
      rw [hkm]
      simp only [if_neg hne, ← hexp, if_neg hEq, hb, if_pos rfl, hflip, hst, htok]
      simp

/-- Full characterization of the style engine when both names
classify: equal conventions report nothing; different conventions
always report exactly one diagnostic with the fixed message, whose fix
list is a single comparator-token rewrite when `emitFixes` is true and
empty when it is false. -/
theorem checkStyle_spec {ass : Assertion} {so ss : Style}
    (ho : getStyle ass.Omega.name = Except.ok so)
    (hs : getStyle ass.Should.name = Except.ok ss) (emitFixes : Bool) :
    (so = ss ∧ checkStyle ass emitFixes = Except.ok []) ∨
    (so ≠ ss ∧ emitFixes = true ∧ ∃ tok,
      renderInStyle so ass.Negated = Except.ok tok ∧
      getStyle tok = Except.ok so ∧ comparatorNegation tok = some ass.Negated ∧
      checkStyle ass emitFixes = Except.ok
        [⟨ass.span.pos, ass.span.stop,
          "inconsistent assertion style (" ++ ass.Omega.name ++ " + " ++
            ass.Should.name ++ ")",
          [⟨"change " ++ ass.Should.name ++ " to " ++ tok,
            [⟨ass.Should.span.pos, ass.Should.span.stop, tok⟩]⟩]⟩]) ∨
    (so ≠ ss ∧ emitFixes = false ∧ checkStyle ass emitFixes = Except.ok
        [⟨ass.span.pos, ass.span.stop,
          "inconsistent assertion style (" ++ ass.Omega.name ++ " + " ++
            ass.Should.name ++ ")", []⟩]) := by
  have hsty : so = ShouldStyle ∨ so = ExpectStyle := getStyle_mem ho
  by_cases hEq : so = ss
  · left
    refine ⟨hEq, ?_⟩
    unfold checkStyle
    rw [ho, hs]
    simp [if_pos hEq]
  · cases emitFixes with
    | false =>
      right; right
      refine ⟨hEq, rfl, ?_⟩
      unfold checkStyle
      rw [ho, hs]
      simp [if_neg hEq]
    | true =>
      right; left
      obtain ⟨tok, htok, hback, hnegtok⟩ := renderInStyle_spec hsty ass.Negated
      refine ⟨hEq, rfl, tok, htok, hback, hnegtok, ?_⟩
      unfold checkStyle
      rw [ho, hs]
      simp [if_neg hEq, htok]

/-- Inversion of the style engine: any successful run classified both
names, and its output is either empty (equal conventions) or exactly
one diagnostic with the fixed message, whose fix list is determined by
`emitFixes`. -/
theorem checkStyle_inv {ass : Assertion} {emitFixes : Bool} {ds : List Diagnostic}
    (h : checkStyle ass emitFixes = Except.ok ds) :
    ∃ so ss, getStyle ass.Omega.name = Except.ok so ∧
      getStyle ass.Should.name = Except.ok ss ∧
      ((so = ss ∧ ds = []) ∨
       (so ≠ ss ∧ ∃ d, ds = [d] ∧ d.pos = ass.span.pos ∧ d.stop = ass.span.stop ∧
         d.message = "inconsistent assertion style (" ++ ass.Omega.name ++ " + " ++
           ass.Should.name ++ ")" ∧
         ((emitFixes = true ∧ ∃ tok, renderInStyle so ass.Negated = Except.ok tok ∧
             getStyle tok = Except.ok so ∧ comparatorNegation tok = some ass.Negated ∧
             d.suggestedFixes = [⟨"change " ++ ass.Should.name ++ " to " ++ tok,
               [⟨ass.Should.span.pos, ass.Should.span.stop, tok⟩]⟩]) ∨
          (emitFixes = false ∧ d.suggestedFixes = [])))) := by
  rcases hO : getStyle ass.Omega.name with e | so
  · simp only [checkStyle, hO] at h
    cases h
  · rcases hS : getStyle ass.Should.name with e | ss
    · simp only [checkStyle, hO, hS] at h
      cases h
    · have hsty : so = ShouldStyle ∨ so = ExpectStyle := getStyle_mem hO
      simp only [checkStyle, hO, hS] at h
      refine ⟨so, ss, rfl, rfl, ?_⟩
      by_cases hEq : so = ss
      · rw [if_pos hEq] at h
        simp only [Except.ok.injEq] at h
        exact Or.inl ⟨hEq, h.symm⟩
      · rw [if_neg hEq] at h
        right
        cases emitFixes with
        | false =>
          simp only [Bool.false_eq_true, if_false, Except.ok.injEq] at h
          exact ⟨hEq, _, h.symm, rfl, rfl, rfl, Or.inr ⟨rfl, rfl⟩⟩
        | true =>
          simp only [if_true] at h
          obtain ⟨tok, htok, hback, hnegtok⟩ := renderInStyle_spec hsty ass.Negated
          rw [htok] at h
          simp only [Except.ok.injEq] at h
          exact ⟨hEq, _, h.symm, rfl, rfl, rfl,
            Or.inl ⟨rfl, tok, htok, hback, hnegtok, rfl⟩⟩

/-- Rewriting the comparator token to any token that classifies to the
wrapper's convention makes the style engine silent. -/
theorem checkStyle_after_fix {ass : Assertion} {so : Style} {tok : String}
    (ho : getStyle ass.Omega.name = Except.ok so)
    (hback : getStyle tok = Except.ok so) (emitFixes : Bool) (sp2 : Span) :
    checkStyle { ass with Should := ⟨sp2, tok⟩ } emitFixes = Except.ok [] := by
  unfold checkStyle
  have h1 : ({ ass with Should := ⟨sp2, tok⟩ } : Assertion).Omega = ass.Omega := rfl
  have h2 : ({ ass with Should := ⟨sp2, tok⟩ } : Assertion).Should = ⟨sp2, tok⟩ := rfl
  rw [h1, h2]
  rw [show (⟨sp2, tok⟩ : Ident).name = tok from rfl, ho, hback]
  simp

/-! Concrete syntax nodes used as evaluation inputs. -/

/-- The node `Expect(x, y).Should(BeNil())`: the inner wrapper call has
two arguments. -/
def exTwoArgNode : Expr :=
  Expr.call ⟨3, 33⟩
    (Expr.selector ⟨3, 23⟩
      (Expr.call ⟨3, 15⟩ (Expr.identE ⟨⟨3, 9⟩, "Expect"⟩)
        [Expr.identE ⟨⟨10, 11⟩, "x"⟩, Expr.identE ⟨⟨13, 14⟩, "y"⟩])
      ⟨⟨16, 22⟩, "Should"⟩)
    [Expr.call ⟨23, 32⟩ (Expr.identE ⟨⟨23, 28⟩, "BeNil"⟩) []]

/-- The assertion `getAssertion` actually produces for `exTwoArgNode`,
with `Subject` the first of the two wrapper arguments. -/
def exTwoArgAssertion : Assertion :=
  ⟨⟨3, 33⟩, ⟨⟨3, 9⟩, "Expect"⟩, Expr.identE ⟨⟨10, 11⟩, "x"⟩, ⟨⟨16, 22⟩, "Should"⟩,
    Expr.call ⟨23, 32⟩ (Expr.identE ⟨⟨23, 28⟩, "BeNil"⟩) [], false⟩

/-- The node `Expect().Should(BeNil())`: the inner wrapper call has no
arguments. -/
def exZeroArgNode : Expr :=
  Expr.call ⟨3, 30⟩
    (Expr.selector ⟨3, 20⟩
      (Expr.call ⟨3, 11⟩ (Expr.identE ⟨⟨3, 9⟩, "Expect"⟩) [])
      ⟨⟨12, 18⟩, "Should"⟩)
    [Expr.call ⟨20, 29⟩ (Expr.identE ⟨⟨20, 25⟩, "BeNil"⟩) []]

/-- A recognized assertion's comparator name lies in the five-name
comparator set. -/
theorem comparator_name_known {n : Expr} {ass : Assertion}
    (hrec : getAssertion n = Except.ok (some ass)) :
    ass.Should.name = Should ∨ ass.Should.name = To ∨
    ass.Should.name = ShouldNot ∨ ass.Should.name = ToNot ∨
    ass.Should.name = NotTo := by
  obtain ⟨_, hCn⟩ := getAssertion_names hrec
  rcases comparatorNegation_cases hCn with ⟨h, _⟩ | ⟨h, _⟩ <;> tauto

/-- A recognized assertion's wrapper name classifies successfully. -/
theorem wrapper_style_ok {n : Expr} {ass : Assertion}
    (hrec : getAssertion n = Except.ok (some ass)) :
    ∃ st, getStyle ass.Omega.name = Except.ok st ∧
      (st = ShouldStyle ∨ st = ExpectStyle) := by
  obtain ⟨hOm, _⟩ := getAssertion_names hrec
  exact getStyle_ok_of_known (hOm.elim Or.inl fun h => Or.inr (Or.inl h))

/-- The nilness engine never reaches a panic on a recognized
assertion. -/
theorem checkNilness_total (isError : Expr → Bool) {n : Expr} {ass : Assertion}
    (hrec : getAssertion n = Except.ok (some ass)) :
    ∃ ds b, checkNilnessAssertions isError ass = Except.ok (ds, b) := by
  obtain ⟨st, hst, _⟩ := wrapper_style_ok hrec
  rcases getKnownMatcher_cases ass with ⟨sp, i, hM, hknown, hkm⟩ | hUnk
  · rcases checkNilness_known_spec isError hkm hknown rfl hst with
      ⟨h1, h2⟩ | ⟨h1, h2, h3⟩ | ⟨h1, h2, tok, h3, h4, h5, h6⟩
    · exact ⟨[], false, h2⟩
    · exact ⟨_, false, h3⟩
    · exact ⟨_, true, h6⟩
  · exact ⟨[], false, checkNilness_unknown isError (by rw [hUnk])⟩

/-- The style engine never reaches a panic on a recognized assertion. -/
theorem checkStyle_total (emitFixes : Bool) {n : Expr} {ass : Assertion}
    (hrec : getAssertion n = Except.ok (some ass)) :
    ∃ ds, checkStyle ass emitFixes = Except.ok ds := by
  obtain ⟨so, ho, _⟩ := wrapper_style_ok hrec
  have h7 : ass.Should.name = Omega ∨ ass.Should.name = Expect ∨
      ass.Should.name = Should ∨ ass.Should.name = To ∨
      ass.Should.name = ShouldNot ∨ ass.Should.name = ToNot ∨
      ass.Should.name = NotTo := by
    rcases comparator_name_known hrec with h | h | h | h | h <;> tauto
  obtain ⟨ss, hs, _⟩ := getStyle_ok_of_known h7
  rcases checkStyle_spec ho hs emitFixes with
    ⟨_, h⟩ | ⟨_, _, _, _, _, _, h⟩ | ⟨_, _, h⟩ <;> exact ⟨_, h⟩

/-- The per-node check sequence: on a recognized assertion, `checkNode`
reports the nilness engine's diagnostics first, then the style
engine's, with the style engine told not to emit a fix exactly when the
nilness engine already rewrote the comparator token. -/
theorem checkNode_eq (isError : Expr → Bool) {n : Expr} {ass : Assertion}
    {dsNil : List Diagnostic} {b : Bool} {dsStyle : List Diagnostic}
    (hrec : getAssertion n = Except.ok (some ass))
    (h1 : checkNilnessAssertions isError ass = Except.ok (dsNil, b))
    (h2 : checkStyle ass (!b) = Except.ok dsStyle) :
    checkNode isError n = Except.ok (dsNil ++ dsStyle) := by
  simp only [checkNode, hrec, h1, h2]

/-- The host capability query saying every expression's type satisfies
the error interface; used as an evaluation input. -/
def isErrAlways : Expr → Bool := fun _ => true

/-- The node `Expect(err).Should(BeNil())` of the README example. -/
def exNode1 : Expr :=
  Expr.call ⟨3, 30⟩
    (Expr.selector ⟨3, 20⟩
      (Expr.call ⟨3, 14⟩ (Expr.identE ⟨⟨3, 9⟩, "Expect"⟩)
        [Expr.identE ⟨⟨10, 13⟩, "err"⟩])
      ⟨⟨15, 21⟩, "Should"⟩)
    [Expr.call ⟨22, 29⟩ (Expr.identE ⟨⟨22, 27⟩, "BeNil"⟩) []]

/-- The assertion recognized in `exNode1`. -/
def exAssertion1 : Assertion :=
  ⟨⟨3, 30⟩, ⟨⟨3, 9⟩, "Expect"⟩, Expr.identE ⟨⟨10, 13⟩, "err"⟩, ⟨⟨15, 21⟩, "Should"⟩,
    Expr.call ⟨22, 29⟩ (Expr.identE ⟨⟨22, 27⟩, "BeNil"⟩) [], false⟩

/-- An assertion `Expect(x).To(MyCustomMatcher())` whose matcher is not
one of the three known nilness matchers. -/
def exAssertionCustom : Assertion :=
  ⟨⟨3, 36⟩, ⟨⟨3, 9⟩, "Expect"⟩, Expr.identE ⟨⟨10, 11⟩, "x"⟩, ⟨⟨12, 14⟩, "To"⟩,
    Expr.call ⟨15, 35⟩ (Expr.identE ⟨⟨15, 30⟩, "MyCustomMatcher"⟩) [], false⟩

/-- C1: the claim says a node whose inner wrapper call has two or more
arguments is not recognized as an Assertion. The code disagrees: its
inner arity guard re-tests the outer call's argument count, so
`Expect(x, y).Should(BeNil())` is recognized, with `Subject = x`. -/
theorem c1_two_arg_wrapper_recognized :
    getAssertion exTwoArgNode = Except.ok (some exTwoArgAssertion) ∧
    Except.ok (some exTwoArgAssertion) ≠
      (Except.ok none : Except String (Option Assertion)) :=
  ⟨rfl, by simp⟩

/-- C2: the claim says `getAssertion` is total and a zero-argument
wrapper call yields "no match". The code disagrees: on
`Expect().Should(BeNil())` every guard passes (the inner arity guard
re-tests the outer call) and the final `omegaCall.Args[0]` read panics
with an index-out-of-range error. -/
theorem c2_zero_arg_wrapper_panics :
    getAssertion exZeroArgNode = Except.error "index out of range" := by rfl

/-- C3: for every recognized assertion whose matcher classifies to a
known matcher, the expected matcher is `Succeed` when the subject's
type satisfies the error capability and the subject is itself a call,
`HaveOccurred` when the type satisfies the capability and the subject
is not a call, and `BeNil` when the type does not satisfy it; if the
actual matcher equals the expected one nothing is reported, otherwise
exactly one diagnostic is emitted with the exact message
`unidiomatic matcher: consider using <expected> instead of <actual> in
this assertion`, carrying a fix whose first edit replaces the
matcher's callee identifier with the expected matcher's name. -/
theorem c3_nilness_decision (isError : Expr → Bool) (n : Expr) (ass : Assertion)
    (i : Ident) (expected : KnownMatcher)
    (hrec : getAssertion n = Except.ok (some ass))
    (hkm : getKnownMatcher ass = (some i, i.name))
    (hknown : i.name = IsNil ∨ i.name = HaveOccurred ∨ i.name = Succeed)
    (hexp : expected = if isError ass.Subject then
        (if ass.Subject.isCall then Succeed else HaveOccurred) else IsNil) :
    (i.name = expected → checkNilnessAssertions isError ass = Except.ok ([], false)) ∧
    (i.name ≠ expected → ∃ fixMessage tailEdits invert,
      checkNilnessAssertions isError ass = Except.ok
        ([⟨ass.span.pos, ass.span.stop,
          "unidiomatic matcher: consider using " ++ expected ++ " instead of " ++
            i.name ++ " in this assertion",
          [⟨fixMessage, ⟨i.span.pos, i.span.stop, expected⟩ :: tailEdits⟩]⟩],
        invert)) := by
  obtain ⟨st, hst, _⟩ := wrapper_style_ok hrec
  rcases checkNilness_known_spec isError hkm hknown hexp hst with
    ⟨h1, h2⟩ | ⟨h1, h2, h3⟩ | ⟨h1, h2, tok, h3, h4, h5, h6⟩
  · exact ⟨fun _ => h2, fun hne => absurd h1 hne⟩
  · exact ⟨fun he => absurd he h1, fun _ => ⟨_, _, false, h3⟩⟩
  · exact ⟨fun he => absurd he h1, fun _ => ⟨_, _, true, h6⟩⟩

/-- Witness for C3 at the README example: `Expect(err).Should(BeNil())`
with `err` error-capable and not a call. -/
theorem c3_witness :
    (("BeNil" : KnownMatcher) = "HaveOccurred" →
      checkNilnessAssertions isErrAlways exAssertion1 = Except.ok ([], false)) ∧
    (("BeNil" : KnownMatcher) ≠ "HaveOccurred" →
      ∃ fixMessage tailEdits invert,
      checkNilnessAssertions isErrAlways exAssertion1 = Except.ok
        ([⟨exAssertion1.span.pos, exAssertion1.span.stop,
          "unidiomatic matcher: consider using " ++ "HaveOccurred" ++ " instead of " ++
            "BeNil" ++ " in this assertion",
          [⟨fixMessage, ⟨22, 27, "HaveOccurred"⟩ :: tailEdits⟩]⟩],
        invert)) :=
  c3_nilness_decision isErrAlways exNode1 exAssertion1 ⟨⟨22, 27⟩, "BeNil"⟩
    "HaveOccurred" rfl rfl (Or.inl rfl) rfl

/-- C4: nil-polarity is true for `BeNil` and `Succeed` and false for
`HaveOccurred`; whenever the nilness engine emits a diagnostic, the fix
carries a second edit rewriting the comparator token (rendered in the
wrapper's style with the negation flag flipped) and the fix message is
marked as inverting, exactly when the actual and expected matchers
differ in polarity; and the boolean handed back to the caller is true
exactly under that same condition. -/
theorem c4_polarity_inversion (isError : Expr → Bool) (n : Expr) (ass : Assertion)
    (ds : List Diagnostic) (b : Bool)
    (hrec : getAssertion n = Except.ok (some ass))
    (hrun : checkNilnessAssertions isError ass = Except.ok (ds, b))
    (hne : ds ≠ []) :
    matchesNil IsNil = true ∧ matchesNil Succeed = true ∧
    matchesNil HaveOccurred = false ∧
    ∃ i expected d fix,
      getKnownMatcher ass = (some i, i.name) ∧
      expected = (if isError ass.Subject then
        (if ass.Subject.isCall then Succeed else HaveOccurred) else IsNil) ∧
      ds = [d] ∧ d.suggestedFixes = [fix] ∧
      b = (matchesNil i.name != matchesNil expected) ∧
      (matchesNil i.name ≠ matchesNil expected →
        ∃ st tok, getStyle ass.Omega.name = Except.ok st ∧
          renderInStyle st (!ass.Negated) = Except.ok tok ∧
          fix.textEdits = [⟨i.span.pos, i.span.stop, expected⟩,
            ⟨ass.Should.span.pos, ass.Should.span.stop, tok⟩] ∧
          fix.message = "change matcher to " ++ expected ++
            " and invert the assertion") ∧
      (matchesNil i.name = matchesNil expected →
        fix.textEdits = [⟨i.span.pos, i.span.stop, expected⟩] ∧
        fix.message = "change matcher to " ++ expected) := by
  refine ⟨by decide, by decide, by decide, ?_⟩
  obtain ⟨st, hst, _⟩ := wrapper_style_ok hrec
  rcases getKnownMatcher_cases ass with ⟨sp, i, hM, hknown, hkm⟩ | hUnk
  · rcases checkNilness_known_spec isError hkm hknown rfl hst with
      ⟨h1, h2⟩ | ⟨h1, h2, h3⟩ | ⟨h1, h2, tok, h3, h4, h5, h6⟩
    · rw [hrun] at h2
      simp only [Except.ok.injEq, Prod.mk.injEq] at h2
      exact absurd h2.1 hne
    · rw [hrun] at h3
      simp only [Except.ok.injEq, Prod.mk.injEq] at h3
      obtain ⟨hds, hb⟩ := h3
      refine ⟨i, _, _, _, hkm, rfl, hds, rfl, ?_, fun hp => absurd h2 ?_, fun _ => ⟨rfl, rfl⟩⟩
      · rw [hb]; simp [h2]
      · exact fun hc => hp hc
    · rw [hrun] at h6
      simp only [Except.ok.injEq, Prod.mk.injEq] at h6
      obtain ⟨hds, hb⟩ := h6
      refine ⟨i, _, _, _, hkm, rfl, hds, rfl, ?_,
        fun _ => ⟨st, tok, hst, h3, rfl, rfl⟩, fun hp => absurd hp h2⟩
      rw [hb]
      simp [bne_iff_ne]
      exact h2
  · rw [checkNilness_unknown isError (by rw [hUnk])] at hrun
    simp only [Except.ok.injEq, Prod.mk.injEq] at hrun
    exact absurd hrun.1.symm hne

/-- The diagnostic the nilness engine produces on `exAssertion1` when
every expression is error-capable. -/
def exNilDiag1 : Diagnostic :=
  ⟨3, 30,
    "unidiomatic matcher: consider using HaveOccurred instead of BeNil in this assertion",
    [⟨"change matcher to HaveOccurred and invert the assertion",
      [⟨22, 27, "HaveOccurred"⟩, ⟨15, 21, "NotTo"⟩]⟩]⟩

/-- Witness for C4 at the README example, where the polarity flips and
the comparator `Should` is rewritten to `NotTo`. -/
theorem c4_witness :
    matchesNil IsNil = true ∧ matchesNil Succeed = true ∧
    matchesNil HaveOccurred = false ∧
    ∃ i expected d fix,
      getKnownMatcher exAssertion1 = (some i, i.name) ∧
      expected = (if isErrAlways exAssertion1.Subject then
        (if exAssertion1.Subject.isCall then Succeed else HaveOccurred) else IsNil) ∧
      [exNilDiag1] = [d] ∧ d.suggestedFixes = [fix] ∧
      true = (matchesNil i.name != matchesNil expected) ∧
      (matchesNil i.name ≠ matchesNil expected →
        ∃ st tok, getStyle exAssertion1.Omega.name = Except.ok st ∧
          renderInStyle st (!exAssertion1.Negated) = Except.ok tok ∧
          fix.textEdits = [⟨i.span.pos, i.span.stop, expected⟩,
            ⟨exAssertion1.Should.span.pos, exAssertion1.Should.span.stop, tok⟩] ∧
          fix.message = "change matcher to " ++ expected ++
            " and invert the assertion") ∧
      (matchesNil i.name = matchesNil expected →
        fix.textEdits = [⟨i.span.pos, i.span.stop, expected⟩] ∧
        fix.message = "change matcher to " ++ expected) :=
  c4_polarity_inversion isErrAlways exNode1 exAssertion1 [exNilDiag1] true
    rfl rfl (by simp)

/-- C5: on every recognized assertion the nilness engine runs before
the style engine and `checkNode` reports their diagnostics in that
order; the style engine emits exactly one diagnostic when the wrapper's
and comparator's conventions differ (none when they are equal),
regardless of the handed-back flag; and that diagnostic carries a
single-edit fix rewriting the comparator token to the canonical token
of the wrapper's convention with the existing negation preserved
exactly when the nilness engine did not rewrite the comparator
token. -/
theorem c5_engine_order (isError : Expr → Bool) (n : Expr) (ass : Assertion)
    (hrec : getAssertion n = Except.ok (some ass)) :
    ∃ dsNil b dsStyle so ss,
      checkNilnessAssertions isError ass = Except.ok (dsNil, b) ∧
      checkStyle ass (!b) = Except.ok dsStyle ∧
      checkNode isError n = Except.ok (dsNil ++ dsStyle) ∧
      getStyle ass.Omega.name = Except.ok so ∧
      getStyle ass.Should.name = Except.ok ss ∧
      (so = ss → dsStyle = []) ∧
      (so ≠ ss → ∃ d, dsStyle = [d] ∧
        (b = false → ∃ tok,
            renderInStyle so ass.Negated = Except.ok tok ∧
            getStyle tok = Except.ok so ∧
            comparatorNegation tok = some ass.Negated ∧
            d.suggestedFixes =
              [⟨"change " ++ ass.Should.name ++ " to " ++ tok,
                [⟨ass.Should.span.pos, ass.Should.span.stop, tok⟩]⟩]) ∧
        (b = true → d.suggestedFixes = [])) := by
  obtain ⟨so, ho, _⟩ := wrapper_style_ok hrec
  have h7 : ass.Should.name = Omega ∨ ass.Should.name = Expect ∨
      ass.Should.name = Should ∨ ass.Should.name = To ∨
      ass.Should.name = ShouldNot ∨ ass.Should.name = ToNot ∨
      ass.Should.name = NotTo := by
    rcases comparator_name_known hrec with h | h | h | h | h <;> tauto
  obtain ⟨ss, hs, _⟩ := getStyle_ok_of_known h7
  obtain ⟨dsNil, b, hNil⟩ := checkNilness_total isError hrec
  rcases checkStyle_spec ho hs (!b) with
    ⟨hEq, hS⟩ | ⟨hNe, hT, tok, htok, hback, hnegtok, hS⟩ | ⟨hNe, hF, hS⟩
  · exact ⟨dsNil, b, [], so, ss, hNil, hS, checkNode_eq isError hrec hNil hS, ho, hs,
      fun _ => rfl, fun hn => absurd hEq hn⟩
  · refine ⟨dsNil, b, _, so, ss, hNil, hS, checkNode_eq isError hrec hNil hS, ho, hs,
      fun he => absurd he hNe,
      fun _ => ⟨_, rfl, fun _ => ⟨tok, htok, hback, hnegtok, rfl⟩, fun hb => ?_⟩⟩
    rw [hb] at hT
    cases hT
  · refine ⟨dsNil, b, _, so, ss, hNil, hS, checkNode_eq isError hrec hNil hS, ho, hs,
      fun he => absurd he hNe, fun _ => ⟨_, rfl, fun hb => ?_, fun _ => rfl⟩⟩
    rw [hb] at hF
    cases hF

/-- Witness for C5 at the README example node. -/
theorem c5_witness :
    ∃ dsNil b dsStyle so ss,
      checkNilnessAssertions isErrAlways exAssertion1 = Except.ok (dsNil, b) ∧
      checkStyle exAssertion1 (!b) = Except.ok dsStyle ∧
      checkNode isErrAlways exNode1 = Except.ok (dsNil ++ dsStyle) ∧
      getStyle exAssertion1.Omega.name = Except.ok so ∧
      getStyle exAssertion1.Should.name = Except.ok ss ∧
      (so = ss → dsStyle = []) ∧
      (so ≠ ss → ∃ d, dsStyle = [d] ∧
        (b = false → ∃ tok,
            renderInStyle so exAssertion1.Negated = Except.ok tok ∧
            getStyle tok = Except.ok so ∧
            comparatorNegation tok = some exAssertion1.Negated ∧
            d.suggestedFixes =
              [⟨"change " ++ exAssertion1.Should.name ++ " to " ++ tok,
                [⟨exAssertion1.Should.span.pos, exAssertion1.Should.span.stop,
                  tok⟩]⟩]) ∧
        (b = true → d.suggestedFixes = [])) :=
  c5_engine_order isErrAlways exNode1 exAssertion1 rfl

/-- C6: whenever the two conventions differ, the style engine emits
exactly one diagnostic and its message is exactly
`inconsistent assertion style (<wrapper-name> + <comparator-name>)`. -/
theorem c6_style_message (ass : Assertion) (emitFixes : Bool)
    (ds : List Diagnostic) (so ss : Style)
    (ho : getStyle ass.Omega.name = Except.ok so)
    (hs : getStyle ass.Should.name = Except.ok ss)
    (hdiff : so ≠ ss)
    (hrun : checkStyle ass emitFixes = Except.ok ds) :
    ∃ d, ds = [d] ∧ d.message =
      "inconsistent assertion style (" ++ ass.Omega.name ++ " + " ++
        ass.Should.name ++ ")" := by
  obtain ⟨so2, ss2, ho2, hs2, hcases⟩ := checkStyle_inv hrun
  rw [ho] at ho2
  rw [hs] at hs2
  injection ho2 with e1
  injection hs2 with e2
  subst e1
  subst e2
  rcases hcases with ⟨hEq, _⟩ | ⟨_, d, hds, _, _, hmsg, _⟩
  · exact absurd hEq hdiff
  · exact ⟨d, hds, hmsg⟩

/-- Witness for C6 at the README example (`Expect` + `Should`). -/
theorem c6_witness :
    ∃ d, [(⟨3, 30, "inconsistent assertion style (Expect + Should)",
        [⟨"change Should to To", [⟨15, 21, "To"⟩]⟩]⟩ : Diagnostic)] = [d] ∧
      d.message = "inconsistent assertion style (" ++ exAssertion1.Omega.name ++
        " + " ++ exAssertion1.Should.name ++ ")" :=
  c6_style_message exAssertion1 true
    [⟨3, 30, "inconsistent assertion style (Expect + Should)",
      [⟨"change Should to To", [⟨15, 21, "To"⟩]⟩]⟩]
    ExpectStyle ShouldStyle rfl rfl (by decide) rfl

/-- C7: the rendered comparator token round-trips through the style
classifier with its negation recovered; consequently, applying the
style engine's single-edit fix yields an assertion on which a re-run of
the style engine emits nothing. -/
theorem c7_style_roundtrip :
    (∀ (st : Style) (negated : Bool) (tok : String),
      (st = ShouldStyle ∨ st = ExpectStyle) →
      renderInStyle st negated = Except.ok tok →
      getStyle tok = Except.ok st ∧ comparatorNegation tok = some negated) ∧
    (∀ (ass : Assertion) (d : Diagnostic) (fix : SuggestedFix) (e : TextEdit),
      checkStyle ass true = Except.ok [d] →
      d.suggestedFixes = [fix] → fix.textEdits = [e] →
      checkStyle { ass with Should := ⟨ass.Should.span, e.newText⟩ } true =
        Except.ok []) := by
  constructor
  · intro st negated tok hsty htok
    obtain ⟨tok2, htok2, hback, hneg⟩ := renderInStyle_spec hsty negated
    rw [htok2] at htok
    injection htok with e1
    subst e1
    exact ⟨hback, hneg⟩
  · intro ass d fix e hrun hfix hedits
    obtain ⟨so, ss, ho, hs, hcases⟩ := checkStyle_inv hrun
    rcases hcases with ⟨_, hds⟩ | ⟨_, d2, hds, _, _, _, hfixcases⟩
    · cases hds
    · injection hds with e1 _
      subst e1
      rcases hfixcases with ⟨_, tok, htok, hback, _, hsf⟩ | ⟨hfalse, _⟩
      · rw [hfix] at hsf
        injection hsf with e2 _
        subst e2
        injection hedits with e3 _
        rw [← e3]
        exact checkStyle_after_fix ho hback true ass.Should.span
      · cases hfalse

/-- Witness for C7: rendering `ShouldStyle` negated gives `ShouldNot`,
which classifies back to `ShouldStyle` with negation `true`. -/
theorem c7_witness :
    getStyle ShouldNot = Except.ok ShouldStyle ∧
    comparatorNegation ShouldNot = some true :=
  c7_style_roundtrip.1 ShouldStyle true ShouldNot (Or.inl rfl) rfl

/-- C8: convention classification is defined (no `panic("foo")`) on all
seven known wrapper/comparator names; the renderer is defined (no
`panic("bar")`) on both style values the classifier can produce; and on
every assertion the matcher recognizes, both engines run to completion
without reaching any abrupt-failure branch. -/
theorem c8_classification_safety :
    (∀ s : String,
      (s = Omega ∨ s = Expect ∨ s = Should ∨ s = To ∨ s = ShouldNot ∨
        s = ToNot ∨ s = NotTo) →
      ∃ st, getStyle s = Except.ok st ∧ (st = ShouldStyle ∨ st = ExpectStyle)) ∧
    (∀ (st : Style) (negated : Bool), (st = ShouldStyle ∨ st = ExpectStyle) →
      ∃ tok, renderInStyle st negated = Except.ok tok) ∧
    (∀ (isError : Expr → Bool) (n : Expr) (ass : Assertion),
      getAssertion n = Except.ok (some ass) →
      (∃ r, checkNilnessAssertions isError ass = Except.ok r) ∧
      (∀ emitFixes, ∃ ds, checkStyle ass emitFixes = Except.ok ds)) := by
  refine ⟨fun s h => getStyle_ok_of_known h, fun st negated h => ?_, ?_⟩
  · obtain ⟨tok, htok, _⟩ := renderInStyle_spec h negated
    exact ⟨tok, htok⟩
  · intro isError n ass hrec
    obtain ⟨ds, b, hNil⟩ := checkNilness_total isError hrec
    exact ⟨⟨(ds, b), hNil⟩, fun emitFixes => checkStyle_total emitFixes hrec⟩

/-- Witness for C8: the engines run to completion on the README
example. -/
theorem c8_witness :
    (∃ r, checkNilnessAssertions isErrAlways exAssertion1 = Except.ok r) ∧
    (∀ emitFixes, ∃ ds, checkStyle exAssertion1 emitFixes = Except.ok ds) :=
  c8_classification_safety.2.2 isErrAlways exNode1 exAssertion1 rfl

/-- C9: the matcher classifier yields a known matcher exactly for a
zero-argument call whose callee is a plain identifier named `BeNil`,
`HaveOccurred` or `Succeed`; in every other case it yields
`UnknownMatcher`, on which the nilness engine reports nothing, emits no
edits and hands `false` back, for any capability query. -/
theorem c9_matcher_classification :
    (∀ ass : Assertion,
      ((getKnownMatcher ass).2 ≠ UnknownMatcher ↔
        ∃ sp i, ass.Matcher = Expr.call sp (Expr.identE i) [] ∧
          (i.name = IsNil ∨ i.name = HaveOccurred ∨ i.name = Succeed) ∧
          getKnownMatcher ass = (some i, i.name))) ∧
    (∀ (isError : Expr → Bool) (ass : Assertion),
      (getKnownMatcher ass).2 = UnknownMatcher →
      checkNilnessAssertions isError ass = Except.ok ([], false)) := by
  constructor
  · intro ass
    constructor
    · intro hne
      rcases getKnownMatcher_cases ass with h | h
      · exact h
      · rw [h] at hne
        exact absurd rfl hne
    · rintro ⟨sp, i, hM, hknown, hkm⟩
      rw [hkm]
      exact known_ne_unknown hknown
  · exact fun isError ass h => checkNilness_unknown isError h

/-- Witness for C9: a custom matcher classifies to `UnknownMatcher` and
the nilness engine is a no-op on it. -/
theorem c9_witness :
    (getKnownMatcher exAssertionCustom).2 = UnknownMatcher ∧
    checkNilnessAssertions isErrAlways exAssertionCustom =
      Except.ok ([], false) :=
  ⟨rfl, c9_matcher_classification.2 isErrAlways exAssertionCustom rfl⟩

/-- C10: when the nilness engine emits an inversion edit, the
replacement comparator token is rendered in the wrapper's convention
with the negation flag flipped, so it classifies to the wrapper's
convention, and the fixed assertion makes the style engine silent. -/
theorem c10_inversion_wrapper_convention (isError : Expr → Bool) (n : Expr)
    (ass : Assertion) (d : Diagnostic) (fix : SuggestedFix) (e1 e2 : TextEdit)
    (hrec : getAssertion n = Except.ok (some ass))
    (hrun : checkNilnessAssertions isError ass = Except.ok ([d], true))
    (hfix : d.suggestedFixes = [fix])
    (hedits : fix.textEdits = [e1, e2]) :
    ∃ st, getStyle ass.Omega.name = Except.ok st ∧
      renderInStyle st (!ass.Negated) = Except.ok e2.newText ∧
      getStyle e2.newText = Except.ok st ∧
      e2.pos = ass.Should.span.pos ∧ e2.stop = ass.Should.span.stop ∧
      ∀ emitFixes, checkStyle { ass with Should := ⟨ass.Should.span, e2.newText⟩ }
        emitFixes = Except.ok [] := by
  obtain ⟨st, hst, _⟩ := wrapper_style_ok hrec
  rcases getKnownMatcher_cases ass with ⟨sp, i, hM, hknown, hkm⟩ | hUnk
  · rcases checkNilness_known_spec isError hkm hknown rfl hst with
      ⟨_, h2⟩ | ⟨_, _, h3⟩ | ⟨_, _, tok, h3, h4, _, h6⟩
    · rw [hrun] at h2
      simp at h2
    · rw [hrun] at h3
      simp at h3
    · rw [hrun] at h6
      simp only [Except.ok.injEq, Prod.mk.injEq, List.cons.injEq, and_true] at h6
      subst h6
      injection hfix with e5 _
      subst e5
      injection hedits with e6 hrest
      injection hrest with e7 _
      subst e7
      exact ⟨st, hst, h3, h4, rfl, rfl,
        fun emitFixes => checkStyle_after_fix hst h4 emitFixes ass.Should.span⟩
  · rw [checkNilness_unknown isError (by rw [hUnk])] at hrun
    simp at hrun

/-- Witness for C10 at the README example: the inversion edit's token
`NotTo` is in the wrapper's (`Expect`) convention, and the fixed
assertion is style-consistent. -/
theorem c10_witness :
    ∃ st, getStyle exAssertion1.Omega.name = Except.ok st ∧
      renderInStyle st (!exAssertion1.Negated) =
        Except.ok (⟨15, 21, "NotTo"⟩ : TextEdit).newText ∧
      getStyle (⟨15, 21, "NotTo"⟩ : TextEdit).newText = Except.ok st ∧
      (⟨15, 21, "NotTo"⟩ : TextEdit).pos = exAssertion1.Should.span.pos ∧
      (⟨15, 21, "NotTo"⟩ : TextEdit).stop = exAssertion1.Should.span.stop ∧
      ∀ emitFixes, checkStyle { exAssertion1 with
          Should := ⟨exAssertion1.Should.span,
            (⟨15, 21, "NotTo"⟩ : TextEdit).newText⟩ } emitFixes =
        Except.ok [] :=
  c10_inversion_wrapper_convention isErrAlways exNode1 exAssertion1
    exNilDiag1
    ⟨"change matcher to HaveOccurred and invert the assertion",
      [⟨22, 27, "HaveOccurred"⟩, ⟨15, 21, "NotTo"⟩]⟩
    ⟨22, 27, "HaveOccurred"⟩ ⟨15, 21, "NotTo"⟩
    rfl rfl rfl rfl

end Gomegalint
